import Mathlib

/-!
Shallow embedding of `include/storage/io.hpp` from osrm-backend: the binary
artifact loader (`storage::io::File` plus the free-standing artifact decoders).

A binary stream is modelled as a list of bytes (`List Nat`, each byte < 256 in
well-formed inputs; no proof obligation depends on the bound).  `File` carries
the filename (kept for error messages, as in the source), the full byte
contents of the opened stream, and the read cursor.  Fallible operations
return `Except IOError`; the `IOError` constructors correspond one-to-one to
the `util::exception` messages thrown by the source, and `IOError.errorText`
reproduces the message text (the `strerror(errno)` suffix, which is
environment-dependent, is left off).

`BOOST_ASSERT` / `BOOST_ASSERT_MSG` statements are modelled as fatal errors
(`IOError.assertionFailure`), matching their documented role of aborting on
invariant violation.
-/

namespace OsrmIO

/-- Error taxonomy of `io.hpp`: every `throw util::exception(...)` site gets a
constructor carrying the data interpolated into the message. -/
inductive IOError where
  | openError (filename : String)
  | readNoBytes (filename : String)
  | unexpectedEndOfFile (filename : String)
  | fingerprintMismatch (filename : String)
  | assertionFailure (msg : String)
  deriving DecidableEq, Repr

/-- The message text each error site produces in the source
(`strerror(errno)` suffixes omitted as environment-dependent). -/
def IOError.errorText : IOError → String
  | .openError filename => "Error opening " ++ filename ++ ":"
  | .readNoBytes filename => "Error reading from " ++ filename ++ ": "
  | .unexpectedEndOfFile filename =>
      "Error reading from " ++ filename ++ ": Unexpected end of file"
  | .fingerprintMismatch filename => "Fingerprint mismatch in " ++ filename
  | .assertionFailure msg => msg

/-- `storage::io::File`: an open read-only stream (its full byte contents),
the path kept for error messages, and the read cursor. -/
structure File where
  filename : String
  data : List Nat
  pos : Nat
  deriving DecidableEq, Repr

/-- `File::readInto(T *dest, std::size_t count)`: reads `count * sizeof T`
bytes (`size` stands for `sizeof(T)`).  No-op for `count == 0`; reading zero
bytes throws the `strerror` message; a short read throws
"Unexpected end of file"; otherwise the bytes are returned and the cursor
advances. -/
def File.readInto (f : File) (count size : Nat) : Except IOError (List Nat × File) :=
  if count = 0 then
    .ok ([], f)
  else
    let expected_bytes := count * size
    let bytes := (f.data.drop f.pos).take expected_bytes
    if bytes.length = 0 then
      .error (.readNoBytes f.filename)
    else if bytes.length < expected_bytes then
      .error (.unexpectedEndOfFile f.filename)
    else
      .ok (bytes, { f with pos := f.pos + expected_bytes })

/-- `File::skip<T>(element_count)`: advances the cursor by
`element_count * sizeof(T)` bytes via a relative seek; no bounds check and no
failure, even past end-of-file. -/
def File.skip (f : File) (element_count size : Nat) : File :=
  { f with pos := f.pos + element_count * size }

/-- Little-endian value of a byte list (first byte least significant). -/
def leVal : List Nat → Nat
  | [] => 0
  | b :: bs => b + 256 * leVal bs

/-- `k`-byte little-endian encoding of `n` (mod `256^k`). -/
def toLEBytes : Nat → Nat → List Nat
  | 0, _ => []
  | k + 1, n => n % 256 :: toLEBytes k (n / 256)

/-- Modelled from the spec: `util::FingerPrint` (header `util/fingerprint.hpp`
is not part of the sources here).  A fixed-size record holding a magic number
and independent version markers for each producing subsystem
(graph-construction, contraction, spatial-index, query-object layout). -/
structure FingerPrint where
  magic_number : Nat
  graph_util_version : Nat
  contractor_version : Nat
  rtree_version : Nat
  query_objects_version : Nat
  deriving DecidableEq, Repr

/-- Modelled from the spec: on-disk size of a `FingerPrint` record; each of
the five fields is stored as a 4-byte little-endian word in order. -/
def fingerPrintSize : Nat := 20

/-- Modelled from the spec: decode one `FingerPrint` record from its bytes. -/
def decodeFingerPrint (bs : List Nat) : FingerPrint :=
  { magic_number := leVal (bs.take 4)
    graph_util_version := leVal ((bs.drop 4).take 4)
    contractor_version := leVal ((bs.drop 8).take 4)
    rtree_version := leVal ((bs.drop 12).take 4)
    query_objects_version := leVal ((bs.drop 16).take 4) }

/-- Modelled from the spec: encode a `FingerPrint` record (the layout a
symmetric writer produces). -/
def encodeFingerPrint (fp : FingerPrint) : List Nat :=
  toLEBytes 4 fp.magic_number ++ toLEBytes 4 fp.graph_util_version ++
    toLEBytes 4 fp.contractor_version ++ toLEBytes 4 fp.rtree_version ++
    toLEBytes 4 fp.query_objects_version

/-- Modelled from the spec: `util::FingerPrint::GetValid()`, the fingerprint
of the running build, derived from compile-time constants (concrete
placeholder values). -/
def FingerPrint.GetValid : FingerPrint :=
  { magic_number := 1297240911
    graph_util_version := 11
    contractor_version := 22
    rtree_version := 33
    query_objects_version := 44 }

/-- Modelled from the spec: magic-number comparison between two fingerprints. -/
def FingerPrint.IsMagicNumberOK (valid other : FingerPrint) : Bool :=
  valid.magic_number == other.magic_number

/-- Modelled from the spec: graph-construction dimension comparison. -/
def FingerPrint.TestGraphUtil (valid other : FingerPrint) : Bool :=
  valid.graph_util_version == other.graph_util_version

/-- Modelled from the spec: contraction dimension comparison. -/
def FingerPrint.TestContractor (valid other : FingerPrint) : Bool :=
  valid.contractor_version == other.contractor_version

/-- Modelled from the spec: spatial-index dimension comparison. -/
def FingerPrint.TestRTree (valid other : FingerPrint) : Bool :=
  valid.rtree_version == other.rtree_version

/-- Modelled from the spec: query-object-layout dimension comparison. -/
def FingerPrint.TestQueryObjects (valid other : FingerPrint) : Bool :=
  valid.query_objects_version == other.query_objects_version

/-- `File::readOne<T>()` specialised to `util::FingerPrint`: one
`readInto(&tmp, 1)` of `sizeof(FingerPrint)` bytes, decoded. -/
def File.readOneFingerPrint (f : File) : Except IOError (FingerPrint × File) := do
  let (bs, f') ← f.readInto 1 fingerPrintSize
  pure (decodeFingerPrint bs, f')

/-- `File::readAndCheckFingerprint()`: reads one fingerprint and compares the
compilation state against the current build on all dimensions. -/
def File.readAndCheckFingerprint (f : File) : Except IOError (Bool × File) := do
  let (fingerprint, f') ← f.readOneFingerPrint
  let valid := FingerPrint.GetValid
  pure (valid.IsMagicNumberOK fingerprint && valid.TestContractor fingerprint &&
        valid.TestGraphUtil fingerprint && valid.TestRTree fingerprint &&
        valid.TestQueryObjects fingerprint, f')

/-- `File::File(path, check_fingerprint)`: opens the stream (the bytes are the
model of a successfully opened stream) and, when `check_fingerprint` is set,
immediately reads and validates one fingerprint, throwing
"Fingerprint mismatch in <path>" when validation returns false. -/
def File.open (filename : String) (data : List Nat) (check_fingerprint : Bool) :
    Except IOError File :=
  let f : File := ⟨filename, data, 0⟩
  if check_fingerprint then
    match f.readAndCheckFingerprint with
    | .error e => .error e
    | .ok (ok, f') => if ok then .ok f' else .error (.fingerprintMismatch filename)
  else
    .ok f

/-- `File::readOne<uint32_t>` (little-endian, as on the source's platforms). -/
def File.readU32 (f : File) : Except IOError (Nat × File) := do
  let (bs, f') ← f.readInto 1 4
  pure (leVal bs, f')

/-- `File::readOne<uint64_t>`. -/
def File.readU64 (f : File) : Except IOError (Nat × File) := do
  let (bs, f') ← f.readInto 1 8
  pure (leVal bs, f')

/-- `File::readElementCount32()`. -/
def File.readElementCount32 (f : File) : Except IOError (Nat × File) :=
  f.readU32

/-- `File::readElementCount64()`. -/
def File.readElementCount64 (f : File) : Except IOError (Nat × File) :=
  f.readU64

/-- Split a byte span into `n` records of `size` bytes each: the model of
filling a `std::vector` resized to `n` elements from a byte buffer. -/
def chunkRecords : Nat → Nat → List Nat → List (List Nat)
  | 0, _, _ => []
  | n + 1, size, bs => bs.take size :: chunkRecords n size (bs.drop size)

/-- `File::deserializeVector<T>`: reads the 8-byte element count, resizes the
destination to that count, and bulk-reads `count` records of `elemSize`
(`sizeof(T)`) bytes in one `readInto`. -/
def File.deserializeVector (f : File) (elemSize : Nat) :
    Except IOError (List (List Nat) × File) := do
  let (count, f1) ← f.readElementCount64
  let (bytes, f2) ← f1.readInto count elemSize
  pure (chunkRecords count elemSize bytes, f2)

/-- Lines of `std::getline` looped to end-of-stream: each line is the bytes up
to (and not including) the next newline byte `10`; the newline is consumed; a
final line without a trailing newline is still produced; a trailing newline
does not produce an extra empty line. -/
def splitLines : List Nat → List (List Nat)
  | [] => []
  | b :: bs =>
      if b = 10 then [] :: splitLines bs
      else
        match splitLines bs with
        | [] => [[b]]
        | l :: ls => (b :: l) :: ls

/-- `File::readLines()`: reads newline-delimited records until end-of-file
(end-of-file is normal termination); the cursor ends at end-of-stream. -/
def File.readLines (f : File) : List (List Nat) × File :=
  (splitLines (f.data.drop f.pos), { f with pos := f.data.length })

/-- `HSGRHeader`: `{ checksum : uint32, number_of_nodes : uint64,
number_of_edges : uint64 }`, packed to 20 bytes on disk. -/
structure HSGRHeader where
  checksum : Nat
  number_of_nodes : Nat
  number_of_edges : Nat
  deriving DecidableEq, Repr

/-- `readHSGRHeader(io::File&)`: reads one fingerprint; if its
graph-construction (`TestGraphUtil`) dimension differs from the current build
it only logs a warning (the returned `Bool` records whether the warning was
emitted); then reads checksum, number_of_nodes and number_of_edges in order;
`BOOST_ASSERT_MSG(0 != number_of_nodes)` is modelled as a fatal error. -/
def readHSGRHeader (input_file : File) : Except IOError (Bool × HSGRHeader × File) := do
  let fingerprint_valid := FingerPrint.GetValid
  let (fingerprint_loaded, f1) ← input_file.readOneFingerPrint
  let warned := !(fingerprint_loaded.TestGraphUtil fingerprint_valid)
  let (checksum, f2) ← f1.readU32
  let (number_of_nodes, f3) ← f2.readU64
  let (number_of_edges, f4) ← f3.readU64
  if number_of_nodes = 0 then
    .error (.assertionFailure "number of nodes is zero")
  else
    .ok (warned, ⟨checksum, number_of_nodes, number_of_edges⟩, f4)

/-- Modelled from the spec: `extractor::OriginalEdgeData`
(`extractor/original_edge_data.hpp` is not part of the sources here): one
fixed-size record per original edge with via-geometry id, name id, turn
instruction, lane-data id, travel mode, entry-class id and the two turn
bearings; each field modelled as one 4-byte little-endian word. -/
structure OriginalEdgeData where
  via_geometry : Nat
  name_id : Nat
  turn_instruction : Nat
  lane_data_id : Nat
  travel_mode : Nat
  entry_classid : Nat
  pre_turn_bearing : Nat
  post_turn_bearing : Nat
  deriving DecidableEq, Repr

/-- Modelled from the spec: on-disk size of one `OriginalEdgeData` record. -/
def originalEdgeDataSize : Nat := 32

/-- Modelled from the spec: decode one `OriginalEdgeData` record. -/
def decodeOriginalEdgeData (bs : List Nat) : OriginalEdgeData :=
  { via_geometry := leVal (bs.take 4)
    name_id := leVal ((bs.drop 4).take 4)
    turn_instruction := leVal ((bs.drop 8).take 4)
    lane_data_id := leVal ((bs.drop 12).take 4)
    travel_mode := leVal ((bs.drop 16).take 4)
    entry_classid := leVal ((bs.drop 20).take 4)
    pre_turn_bearing := leVal ((bs.drop 24).take 4)
    post_turn_bearing := leVal ((bs.drop 28).take 4) }

/-- The eight parallel output arrays `readEdges` populates. -/
structure EdgeLists where
  geometry_list : List Nat
  name_id_list : List Nat
  turn_instruction_list : List Nat
  lane_data_id_list : List Nat
  travel_mode_list : List Nat
  entry_class_id_list : List Nat
  pre_turn_bearing_list : List Nat
  post_turn_bearing_list : List Nat
  deriving DecidableEq, Repr

/-- The output sequences of `readEdges`, in source order of assignment. -/
def EdgeLists.outputSequences (e : EdgeLists) : List (List Nat) :=
  [e.geometry_list, e.name_id_list, e.turn_instruction_list, e.lane_data_id_list,
   e.travel_mode_list, e.entry_class_id_list, e.pre_turn_bearing_list,
   e.post_turn_bearing_list]

/-- The loop of `readEdges`: reads `number_of_edges` records one `readInto`
at a time, in file order. -/
def readEdgesLoop (number_of_edges : Nat) (f : File) :
    Except IOError (List OriginalEdgeData × File) :=
  match number_of_edges with
  | 0 => .ok ([], f)
  | n + 1 => do
      let (bs, f') ← f.readInto 1 originalEdgeDataSize
      let current_edge_data := decodeOriginalEdgeData bs
      let (rest, f'') ← readEdgesLoop n f'
      pure (current_edge_data :: rest, f'')

/-- `readEdges`: iterates `number_of_edges` fixed-size record reads and
scatters each record's fields to position `i` of the eight output arrays. -/
def readEdges (edges_input_file : File) (number_of_edges : Nat) :
    Except IOError (EdgeLists × File) := do
  let (records, f') ← readEdgesLoop number_of_edges edges_input_file
  pure
    ({ geometry_list := records.map (·.via_geometry)
       name_id_list := records.map (·.name_id)
       turn_instruction_list := records.map (·.turn_instruction)
       lane_data_id_list := records.map (·.lane_data_id)
       travel_mode_list := records.map (·.travel_mode)
       entry_class_id_list := records.map (·.entry_classid)
       pre_turn_bearing_list := records.map (·.pre_turn_bearing)
       post_turn_bearing_list := records.map (·.post_turn_bearing) }, f')

/-- Modelled from the spec: `extractor::QueryNode`
(`extractor/query_node.hpp` is not part of the sources here): fixed
longitude/latitude (4-byte signed words, fixed-point micro-degrees) and the
external OSM node id (8-byte word); 16 bytes total. -/
structure QueryNode where
  lon : Int
  lat : Int
  node_id : Nat
  deriving DecidableEq, Repr

/-- Modelled from the spec: on-disk size of one `QueryNode` record. -/
def queryNodeSize : Nat := 16

/-- Two's-complement reading of a 4-byte little-endian word. -/
def toSigned32 (n : Nat) : Int :=
  if n < 2 ^ 31 then (n : Int) else (n : Int) - 2 ^ 32

/-- Modelled from the spec: decode one `QueryNode` record. -/
def decodeQueryNode (bs : List Nat) : QueryNode :=
  { lon := toSigned32 (leVal (bs.take 4))
    lat := toSigned32 (leVal ((bs.drop 4).take 4))
    node_id := leVal (bs.drop 8) }

/-- Modelled from the spec: `util::Coordinate` (`util/coordinate.hpp` is not
part of the sources here): a fixed-point longitude/latitude pair. -/
structure Coordinate where
  lon : Int
  lat : Int
  deriving DecidableEq, Repr

/-- Modelled from the spec: `Coordinate::IsValid()` — the coordinate lies
within the valid longitude/latitude range (fixed-point micro-degrees). -/
def Coordinate.IsValid (c : Coordinate) : Bool :=
  -180 * 1000000 ≤ c.lon && c.lon ≤ 180 * 1000000 &&
    -90 * 1000000 ≤ c.lat && c.lat ≤ 90 * 1000000

/-- The loop of `readNodes`: reads `number_of_coordinates` `QueryNode`
records, appending the coordinate and the external id at the same index;
`BOOST_ASSERT(coordinate_list[i].IsValid())` is modelled as a fatal error. -/
def readNodesLoop (number_of_coordinates : Nat) (f : File)
    (coordinate_list : List Coordinate) (osmnodeid_list : List Nat) :
    Except IOError (List Coordinate × List Nat × File) :=
  match number_of_coordinates with
  | 0 => .ok (coordinate_list, osmnodeid_list, f)
  | n + 1 => do
      let (bs, f') ← f.readInto 1 queryNodeSize
      let current_node := decodeQueryNode bs
      let c : Coordinate := ⟨current_node.lon, current_node.lat⟩
      if c.IsValid then
        readNodesLoop n f' (coordinate_list ++ [c]) (osmnodeid_list ++ [current_node.node_id])
      else
        .error (.assertionFailure "invalid coordinate")

/-- `readNodes`: loads coordinates and OSM node ids from a `.nodes` stream. -/
def readNodes (nodes_file : File) (number_of_coordinates : Nat) :
    Except IOError (List Coordinate × List Nat × File) :=
  readNodesLoop number_of_coordinates nodes_file [] []

/-- `DatasourceNamesData`: flattened name bytes plus parallel offset/length
tables. -/
structure DatasourceNamesData where
  names : List Nat
  offsets : List Nat
  lengths : List Nat
  deriving DecidableEq, Repr

/-- The loop of `readDatasourceNames`: for each line, pushes the current size
of `names` as the offset, the line length, then appends the line's bytes. -/
def readDatasourceNamesLoop (lines : List (List Nat)) (d : DatasourceNamesData) :
    DatasourceNamesData :=
  match lines with
  | [] => d
  | name :: rest =>
      readDatasourceNamesLoop rest
        { names := d.names ++ name
          offsets := d.offsets ++ [d.names.length]
          lengths := d.lengths ++ [name.length] }

/-- `readDatasourceNames`: reads all lines and builds the flattened
names/offsets/lengths table. -/
def readDatasourceNames (datasource_names_file : File) : DatasourceNamesData × File :=
  let (lines, f') := datasource_names_file.readLines
  (readDatasourceNamesLoop lines ⟨[], [], []⟩, f')

/-- Free-standing `readElementCount64(boost::filesystem::ifstream&)`: a raw
`istream::read` of 8 bytes into a zero-initialised `uint64_t` with no status
or short-read check — whatever bytes are available overwrite the low-order
bytes, the rest stay zero, and the value is returned unconditionally. -/
def readElementCount64 (input_stream : File) : Nat × File :=
  let avail := (input_stream.data.drop input_stream.pos).take 8
  (leVal (avail ++ List.replicate (8 - avail.length) 0),
   { input_stream with pos := input_stream.pos + avail.length })

/-- Free-standing `readElementCount32(boost::filesystem::ifstream&)`: same as
`readElementCount64` but reads a zero-initialised `uint32_t` (4 bytes) and
returns it widened to 64 bits. -/
def readElementCount32 (input_stream : File) : Nat × File :=
  let avail := (input_stream.data.drop input_stream.pos).take 4
  (leVal (avail ++ List.replicate (4 - avail.length) 0),
   { input_stream with pos := input_stream.pos + avail.length })

/-- Fields of the well-formedness needed for byte round-trips: every field
fits a 4-byte word. -/
def FingerPrint.Wf (fp : FingerPrint) : Prop :=
  fp.magic_number < 2 ^ 32 ∧ fp.graph_util_version < 2 ^ 32 ∧
    fp.contractor_version < 2 ^ 32 ∧ fp.rtree_version < 2 ^ 32 ∧
    fp.query_objects_version < 2 ^ 32

/-- Modelled from the spec: the byte layout a symmetric writer produces for
one `OriginalEdgeData` record. -/
def encodeOriginalEdgeData (r : OriginalEdgeData) : List Nat :=
  toLEBytes 4 r.via_geometry ++ toLEBytes 4 r.name_id ++ toLEBytes 4 r.turn_instruction ++
    toLEBytes 4 r.lane_data_id ++ toLEBytes 4 r.travel_mode ++ toLEBytes 4 r.entry_classid ++
    toLEBytes 4 r.pre_turn_bearing ++ toLEBytes 4 r.post_turn_bearing

/-- Every field of the edge record fits its 4-byte word. -/
def OriginalEdgeData.Wf (r : OriginalEdgeData) : Prop :=
  r.via_geometry < 2 ^ 32 ∧ r.name_id < 2 ^ 32 ∧ r.turn_instruction < 2 ^ 32 ∧
    r.lane_data_id < 2 ^ 32 ∧ r.travel_mode < 2 ^ 32 ∧ r.entry_classid < 2 ^ 32 ∧
    r.pre_turn_bearing < 2 ^ 32 ∧ r.post_turn_bearing < 2 ^ 32

/-- Concatenated byte image of a list of edge records, in file order. -/
def encodeEdgeRecords : List OriginalEdgeData → List Nat
  | [] => []
  | r :: rs => encodeOriginalEdgeData r ++ encodeEdgeRecords rs

/-- Two's-complement 4-byte image of an integer. -/
def encodeSigned32 (i : Int) : Nat := (i % 2 ^ 32).toNat

/-- Modelled from the spec: the byte layout a symmetric writer produces for
one `QueryNode` record. -/
def encodeQueryNode (node : QueryNode) : List Nat :=
  toLEBytes 4 (encodeSigned32 node.lon) ++ toLEBytes 4 (encodeSigned32 node.lat) ++
    toLEBytes 8 node.node_id

/-- Fields of a node record fit their on-disk words. -/
def QueryNode.Wf (node : QueryNode) : Prop :=
  -2 ^ 31 ≤ node.lon ∧ node.lon < 2 ^ 31 ∧ -2 ^ 31 ≤ node.lat ∧ node.lat < 2 ^ 31 ∧
    node.node_id < 2 ^ 64

instance (node : QueryNode) : Decidable node.Wf := by
  unfold QueryNode.Wf
  infer_instance

/-- Concatenated byte image of a list of node records, in file order. -/
def encodeNodeRecords : List QueryNode → List Nat
  | [] => []
  | r :: rs => encodeQueryNode r ++ encodeNodeRecords rs

/-- Running offsets the datasource-names loop assigns: one per line, each the
total length of the names accumulated before that line. -/
def prefixOffsets (base : Nat) : List (List Nat) → List Nat
  | [] => []
  | l :: ls => base :: prefixOffsets (base + l.length) ls

theorem toLEBytes_length (k n : Nat) : (toLEBytes k n).length = k := by
  induction k generalizing n with
  | zero => rfl
  | succ k ih => simp [toLEBytes, ih]

theorem leVal_toLEBytes (k n : Nat) : leVal (toLEBytes k n) = n % 256 ^ k := by
  induction k generalizing n with
  | zero => simp [toLEBytes, leVal, Nat.mod_one]
  | succ k ih =>
      have hpow : (256 : Nat) ^ (k + 1) = 256 * 256 ^ k := by ring
      have h1 : n % (256 * 256 ^ k) % 256 = n % 256 :=
        Nat.mod_mod_of_dvd n ⟨256 ^ k, rfl⟩
      have h2 : n % (256 * 256 ^ k) / 256 = n / 256 % 256 ^ k :=
        Nat.mod_mul_right_div_self n 256 (256 ^ k)
      have h3 := Nat.div_add_mod (n % (256 * 256 ^ k)) 256
      simp only [toLEBytes, leVal, ih, hpow]
      omega

theorem readInto_length (f : File) (K size : Nat) :
    ((f.data.drop f.pos).take (K * size)).length =
      min (K * size) (f.data.length - f.pos) := by
  simp [List.length_take, List.length_drop]

/-- A short `readInto` always fails: the no-bytes error when the cursor is at
or past end-of-stream, the end-of-file error on a partial read. -/
theorem readInto_short_fails_helper (f : File) (K size : Nat)
    (hK : 0 < K) (hshort : f.data.length - f.pos < K * size) :
    f.readInto K size =
      .error (if f.data.length ≤ f.pos then .readNoBytes f.filename
              else .unexpectedEndOfFile f.filename) := by
  have hlen : ((f.data.drop f.pos).take (K * size)).length = f.data.length - f.pos := by
    simp only [List.length_take, List.length_drop]
    omega
  simp only [File.readInto]
  rw [if_neg (by omega : ¬ K = 0)]
  split_ifs <;> first | rfl | (exfalso; omega)

/-- C1: `File::readInto` with `element_count K > 0` against a stream holding
fewer than `K * element_size` bytes past the cursor always fails — with the
`strerror` message when zero bytes were available and with "Unexpected end of
file" on a partial read, the two error texts being distinct — and a call with
`element_count == 0` is a no-op that succeeds. -/
theorem readInto_short_read_fails (f : File) (K size : Nat)
    (hK : 0 < K) (hshort : f.data.length - f.pos < K * size) :
    (f.readInto K size =
      .error (if f.data.length ≤ f.pos then .readNoBytes f.filename
              else .unexpectedEndOfFile f.filename)) ∧
    (IOError.readNoBytes f.filename).errorText ≠
      (IOError.unexpectedEndOfFile f.filename).errorText ∧
    f.readInto 0 size = .ok ([], f) := by
  refine ⟨readInto_short_fails_helper f K size hK hshort, ?_, by simp [File.readInto]⟩
  · intro h
    have hlen := congrArg String.length h
    simp only [IOError.errorText, String.length_append] at hlen
    have h1 : (": " : String).length = 2 := rfl
    have h2 : (": Unexpected end of file" : String).length = 24 := rfl
    omega

/-- Witness for C1 at a concrete input: a file of 3 bytes, a request for 2
records of 2 bytes each. -/
theorem readInto_short_read_fails_witness :
    (0 < 2 ∧ ((⟨"f", [7, 8, 9], 0⟩ : File).data.length -
        (⟨"f", [7, 8, 9], 0⟩ : File).pos < 2 * 2)) ∧
    ((⟨"f", [7, 8, 9], 0⟩ : File).readInto 2 2 =
        .error (if (⟨"f", [7, 8, 9], 0⟩ : File).data.length ≤
            (⟨"f", [7, 8, 9], 0⟩ : File).pos then .readNoBytes "f"
          else .unexpectedEndOfFile "f")) ∧
    (IOError.readNoBytes "f").errorText ≠ (IOError.unexpectedEndOfFile "f").errorText ∧
    (⟨"f", [7, 8, 9], 0⟩ : File).readInto 0 2 = .ok ([], ⟨"f", [7, 8, 9], 0⟩) :=
  ⟨⟨by decide, by decide⟩,
   readInto_short_read_fails ⟨"f", [7, 8, 9], 0⟩ 2 2 (by decide) (by decide)⟩

theorem leVal_toLEBytes4 (n : Nat) (h : n < 2 ^ 32) : leVal (toLEBytes 4 n) = n := by
  rw [leVal_toLEBytes, show (256 : Nat) ^ 4 = 2 ^ 32 by norm_num, Nat.mod_eq_of_lt h]

/-- A `readInto` whose requested span is exactly available: positioned right
after `pre`, with `bytes` of exactly the requested length next, it returns
`bytes` and advances the cursor past them. -/
theorem readInto_exact (fn : String) (pre bytes post : List Nat) (K size : Nat)
    (hKs : 0 < K * size) (hlen : bytes.length = K * size) :
    (⟨fn, pre ++ (bytes ++ post), pre.length⟩ : File).readInto K size =
      .ok (bytes, ⟨fn, pre ++ (bytes ++ post), pre.length + K * size⟩) := by
  have hK : ¬ K = 0 := by rintro rfl; rw [Nat.zero_mul] at hKs; exact absurd hKs (lt_irrefl 0)
  simp only [File.readInto]
  rw [if_neg hK, List.drop_left, List.take_left' hlen,
    if_neg (by omega : ¬ bytes.length = 0), if_neg (by omega : ¬ bytes.length < K * size)]

theorem encodeFingerPrint_length (fp : FingerPrint) :
    (encodeFingerPrint fp).length = fingerPrintSize := by
  simp [encodeFingerPrint, fingerPrintSize, toLEBytes_length]

theorem decodeFingerPrint_encodeFingerPrint (fp : FingerPrint) (hfp : fp.Wf) :
    decodeFingerPrint (encodeFingerPrint fp) = fp := by
  obtain ⟨hm, hg, hc, hr, hq⟩ := hfp
  have l4 : ∀ n : Nat, (toLEBytes 4 n).length = 4 := fun n => toLEBytes_length 4 n
  simp only [encodeFingerPrint, List.append_assoc]
  have d4 : (toLEBytes 4 fp.magic_number ++ (toLEBytes 4 fp.graph_util_version ++
      (toLEBytes 4 fp.contractor_version ++ (toLEBytes 4 fp.rtree_version ++
        toLEBytes 4 fp.query_objects_version)))).drop 4 =
      toLEBytes 4 fp.graph_util_version ++ (toLEBytes 4 fp.contractor_version ++
        (toLEBytes 4 fp.rtree_version ++ toLEBytes 4 fp.query_objects_version)) :=
    List.drop_left' (l4 _)
  have d8 := congrArg (List.drop 4) d4
  rw [List.drop_drop, List.drop_left' (l4 _)] at d8
  have d12 := congrArg (List.drop 4) d8
  rw [List.drop_drop, List.drop_left' (l4 _)] at d12
  have d16 := congrArg (List.drop 4) d12
  rw [List.drop_drop, List.drop_left' (l4 _)] at d16
  simp only [decodeFingerPrint]
  rw [List.take_left' (l4 _), d4, List.take_left' (l4 _),
    show (8 : Nat) = 4 + 4 from rfl, d8, List.take_left' (l4 _),
    show (12 : Nat) = 8 + 4 from rfl, show (8 : Nat) = 4 + 4 from rfl, d12,
    List.take_left' (l4 _),
    show (16 : Nat) = 12 + 4 from rfl, show (12 : Nat) = 8 + 4 from rfl,
    show (8 : Nat) = 4 + 4 from rfl, d16, List.take_of_length_le (le_of_eq (l4 _)),
    leVal_toLEBytes4 _ hm, leVal_toLEBytes4 _ hg, leVal_toLEBytes4 _ hc,
    leVal_toLEBytes4 _ hr, leVal_toLEBytes4 _ hq]

theorem readOneFingerPrint_encode (fn : String) (fp : FingerPrint) (rest : List Nat)
    (hfp : fp.Wf) :
    (⟨fn, encodeFingerPrint fp ++ rest, 0⟩ : File).readOneFingerPrint =
      .ok (fp, ⟨fn, encodeFingerPrint fp ++ rest, fingerPrintSize⟩) := by
  have h := readInto_exact fn [] (encodeFingerPrint fp) rest 1 fingerPrintSize
    (by norm_num [fingerPrintSize]) (by rw [encodeFingerPrint_length, one_mul])
  simp only [List.nil_append, List.length_nil, Nat.zero_add, one_mul] at h
  simp only [File.readOneFingerPrint, h, bind, Except.bind, pure, Except.pure]
  rw [decodeFingerPrint_encodeFingerPrint fp hfp]

/-- The validation `File::readAndCheckFingerprint` computes on a stream whose
first record is an encoded fingerprint: the conjunction of the magic-number
test and all four dimension tests against the current build. -/
theorem readAndCheckFingerprint_encode (fn : String) (fp : FingerPrint) (rest : List Nat)
    (hfp : fp.Wf) :
    (⟨fn, encodeFingerPrint fp ++ rest, 0⟩ : File).readAndCheckFingerprint =
      .ok (FingerPrint.GetValid.IsMagicNumberOK fp &&
            FingerPrint.GetValid.TestContractor fp &&
            FingerPrint.GetValid.TestGraphUtil fp &&
            FingerPrint.GetValid.TestRTree fp &&
            FingerPrint.GetValid.TestQueryObjects fp,
          ⟨fn, encodeFingerPrint fp ++ rest, fingerPrintSize⟩) := by
  simp only [File.readAndCheckFingerprint, readOneFingerPrint_encode fn fp rest hfp,
    bind, Except.bind, pure, Except.pure]

/-- C2: opening a file with `check_fingerprint` true reads one fingerprint
record and fails with the fingerprint-mismatch error naming the path unless
the magic number and all four version dimensions match the current build; a
differing magic number alone forces failure regardless of the other fields. -/
theorem open_check_fingerprint (fn : String) (fp : FingerPrint) (rest : List Nat)
    (hfp : fp.Wf) :
    (File.open fn (encodeFingerPrint fp ++ rest) true =
      if fp.magic_number = FingerPrint.GetValid.magic_number ∧
         fp.contractor_version = FingerPrint.GetValid.contractor_version ∧
         fp.graph_util_version = FingerPrint.GetValid.graph_util_version ∧
         fp.rtree_version = FingerPrint.GetValid.rtree_version ∧
         fp.query_objects_version = FingerPrint.GetValid.query_objects_version
      then .ok ⟨fn, encodeFingerPrint fp ++ rest, fingerPrintSize⟩
      else .error (.fingerprintMismatch fn)) ∧
    (fp.magic_number ≠ FingerPrint.GetValid.magic_number →
      File.open fn (encodeFingerPrint fp ++ rest) true =
        .error (.fingerprintMismatch fn)) := by
  have hcond :
      (FingerPrint.GetValid.IsMagicNumberOK fp && FingerPrint.GetValid.TestContractor fp &&
        FingerPrint.GetValid.TestGraphUtil fp && FingerPrint.GetValid.TestRTree fp &&
        FingerPrint.GetValid.TestQueryObjects fp) = true ↔
      (fp.magic_number = FingerPrint.GetValid.magic_number ∧
        fp.contractor_version = FingerPrint.GetValid.contractor_version ∧
        fp.graph_util_version = FingerPrint.GetValid.graph_util_version ∧
        fp.rtree_version = FingerPrint.GetValid.rtree_version ∧
        fp.query_objects_version = FingerPrint.GetValid.query_objects_version) := by
    simp only [FingerPrint.IsMagicNumberOK, FingerPrint.TestContractor,
      FingerPrint.TestGraphUtil, FingerPrint.TestRTree, FingerPrint.TestQueryObjects,
      Bool.and_eq_true, beq_iff_eq]
    omega
  have hopen : File.open fn (encodeFingerPrint fp ++ rest) true =
      if (FingerPrint.GetValid.IsMagicNumberOK fp && FingerPrint.GetValid.TestContractor fp &&
          FingerPrint.GetValid.TestGraphUtil fp && FingerPrint.GetValid.TestRTree fp &&
          FingerPrint.GetValid.TestQueryObjects fp)
      then .ok ⟨fn, encodeFingerPrint fp ++ rest, fingerPrintSize⟩
      else .error (.fingerprintMismatch fn) := by
    simp only [File.open, readAndCheckFingerprint_encode fn fp rest hfp, if_true]
  constructor
  · rw [hopen]
    by_cases h : fp.magic_number = FingerPrint.GetValid.magic_number ∧
        fp.contractor_version = FingerPrint.GetValid.contractor_version ∧
        fp.graph_util_version = FingerPrint.GetValid.graph_util_version ∧
        fp.rtree_version = FingerPrint.GetValid.rtree_version ∧
        fp.query_objects_version = FingerPrint.GetValid.query_objects_version
    · rw [if_pos (hcond.mpr h), if_pos h]
    · rw [if_neg (fun hb => h (hcond.mp hb)), if_neg h]
  · intro hmagic
    rw [hopen, if_neg]
    intro hb
    exact hmagic (hcond.mp hb).1

/-- Witness for C2: a fingerprint whose magic number differs from the current
build but whose four dimensions all match is rejected at open. -/
theorem open_check_fingerprint_witness :
    (FingerPrint.Wf ⟨7, 11, 22, 33, 44⟩) ∧
    ((7 : Nat) ≠ FingerPrint.GetValid.magic_number) ∧
    File.open "f" (encodeFingerPrint ⟨7, 11, 22, 33, 44⟩ ++ [5]) true =
      .error (.fingerprintMismatch "f") := by
  have h := open_check_fingerprint "f" ⟨7, 11, 22, 33, 44⟩ [5]
    ⟨by norm_num, by norm_num, by norm_num, by norm_num, by norm_num⟩
  exact ⟨⟨by norm_num, by norm_num, by norm_num, by norm_num, by norm_num⟩,
    by decide, h.2 (by decide)⟩

theorem leVal_toLEBytes8 (n : Nat) (h : n < 2 ^ 64) : leVal (toLEBytes 8 n) = n := by
  rw [leVal_toLEBytes, show (256 : Nat) ^ 8 = 2 ^ 64 by norm_num, Nat.mod_eq_of_lt h]

/-- Positional form of `readInto_exact`: if the unread part of the stream
starts with `bytes` of exactly the requested length, `readInto` returns them
and advances the cursor. -/
theorem readInto_at (f : File) (K size : Nat) (bytes post : List Nat)
    (hKs : 0 < K * size) (hlen : bytes.length = K * size)
    (h : f.data.drop f.pos = bytes ++ post) :
    f.readInto K size = .ok (bytes, { f with pos := f.pos + K * size }) := by
  have hK : ¬ K = 0 := by rintro rfl; rw [Nat.zero_mul] at hKs; exact absurd hKs (lt_irrefl 0)
  simp only [File.readInto]
  rw [if_neg hK, h, List.take_left' hlen,
    if_neg (by omega : ¬ bytes.length = 0), if_neg (by omega : ¬ bytes.length < K * size)]

/-- Consuming `k` bytes moves the unread part past them. -/
theorem drop_after (data : List Nat) (pos k : Nat) (bytes post : List Nat)
    (hlen : bytes.length = k) (h : data.drop pos = bytes ++ post) :
    data.drop (pos + k) = post := by
  rw [← List.drop_drop, h, List.drop_left' hlen]

theorem readU32_at (f : File) (c : Nat) (post : List Nat) (hc : c < 2 ^ 32)
    (h : f.data.drop f.pos = toLEBytes 4 c ++ post) :
    f.readU32 = .ok (c, { f with pos := f.pos + 4 }) := by
  have hr := readInto_at f 1 4 (toLEBytes 4 c) post (by norm_num)
    (by rw [toLEBytes_length, one_mul]) h
  rw [one_mul] at hr
  simp only [File.readU32, hr, bind, Except.bind, pure, Except.pure, leVal_toLEBytes4 c hc]

theorem readU64_at (f : File) (c : Nat) (post : List Nat) (hc : c < 2 ^ 64)
    (h : f.data.drop f.pos = toLEBytes 8 c ++ post) :
    f.readU64 = .ok (c, { f with pos := f.pos + 8 }) := by
  have hr := readInto_at f 1 8 (toLEBytes 8 c) post (by norm_num)
    (by rw [toLEBytes_length, one_mul]) h
  rw [one_mul] at hr
  simp only [File.readU64, hr, bind, Except.bind, pure, Except.pure, leVal_toLEBytes8 c hc]

theorem readOneFingerPrint_at (f : File) (fp : FingerPrint) (post : List Nat)
    (hfp : fp.Wf) (h : f.data.drop f.pos = encodeFingerPrint fp ++ post) :
    f.readOneFingerPrint = .ok (fp, { f with pos := f.pos + fingerPrintSize }) := by
  have hr := readInto_at f 1 fingerPrintSize (encodeFingerPrint fp) post
    (by norm_num [fingerPrintSize]) (by rw [encodeFingerPrint_length, one_mul]) h
  rw [one_mul] at hr
  simp only [File.readOneFingerPrint, hr, bind, Except.bind, pure, Except.pure,
    decodeFingerPrint_encodeFingerPrint fp hfp]

/-- Full evaluation of `readHSGRHeader` on a stream laid out as the `.hsgr`
header: fingerprint, checksum (u32), node count (u64), edge count (u64). -/
theorem readHSGRHeader_encode (fn : String) (fp : FingerPrint) (c n e : Nat)
    (rest : List Nat) (hfp : fp.Wf) (hc : c < 2 ^ 32) (hn : n < 2 ^ 64) (he : e < 2 ^ 64) :
    readHSGRHeader ⟨fn, encodeFingerPrint fp ++ (toLEBytes 4 c ++ (toLEBytes 8 n ++
        (toLEBytes 8 e ++ rest))), 0⟩ =
      if n = 0 then .error (.assertionFailure "number of nodes is zero")
      else .ok (!(fp.TestGraphUtil FingerPrint.GetValid), ⟨c, n, e⟩,
        ⟨fn, encodeFingerPrint fp ++ (toLEBytes 4 c ++ (toLEBytes 8 n ++
          (toLEBytes 8 e ++ rest))), 0 + fingerPrintSize + 4 + 8 + 8⟩) := by
  set D := encodeFingerPrint fp ++ (toLEBytes 4 c ++ (toLEBytes 8 n ++ (toLEBytes 8 e ++ rest)))
    with hD
  have h0 : D.drop 0 = encodeFingerPrint fp ++
      (toLEBytes 4 c ++ (toLEBytes 8 n ++ (toLEBytes 8 e ++ rest))) := by
    rw [List.drop_zero]
  have s1 := readOneFingerPrint_at ⟨fn, D, 0⟩ fp _ hfp h0
  have h1 : D.drop (0 + fingerPrintSize) =
      toLEBytes 4 c ++ (toLEBytes 8 n ++ (toLEBytes 8 e ++ rest)) :=
    drop_after D 0 fingerPrintSize _ _ (encodeFingerPrint_length fp) h0
  have s2 := readU32_at ⟨fn, D, 0 + fingerPrintSize⟩ c _ hc h1
  have h2 : D.drop (0 + fingerPrintSize + 4) = toLEBytes 8 n ++ (toLEBytes 8 e ++ rest) :=
    drop_after D (0 + fingerPrintSize) 4 _ _ (toLEBytes_length 4 c) h1
  have s3 := readU64_at ⟨fn, D, 0 + fingerPrintSize + 4⟩ n _ hn h2
  have h3 : D.drop (0 + fingerPrintSize + 4 + 8) = toLEBytes 8 e ++ rest :=
    drop_after D (0 + fingerPrintSize + 4) 8 _ _ (toLEBytes_length 8 n) h2
  have s4 := readU64_at ⟨fn, D, 0 + fingerPrintSize + 4 + 8⟩ e _ he h3
  simp only [readHSGRHeader, s1, s2, s3, s4, bind, Except.bind, pure, Except.pure]

/-- C3: `readHSGRHeader` on a header whose node count is zero always fails
fatally, even when the edge count is positive; a header with a positive node
count and zero edges is accepted. -/
theorem readHSGRHeader_zero_nodes (fn : String) (fp : FingerPrint) (c : Nat)
    (rest : List Nat) (hfp : fp.Wf) (hc : c < 2 ^ 32) :
    (∀ e, e < 2 ^ 64 →
      readHSGRHeader ⟨fn, encodeFingerPrint fp ++ (toLEBytes 4 c ++ (toLEBytes 8 0 ++
          (toLEBytes 8 e ++ rest))), 0⟩ =
        .error (.assertionFailure "number of nodes is zero")) ∧
    (∀ n, 0 < n → n < 2 ^ 64 →
      readHSGRHeader ⟨fn, encodeFingerPrint fp ++ (toLEBytes 4 c ++ (toLEBytes 8 n ++
          (toLEBytes 8 0 ++ rest))), 0⟩ =
        .ok (!(fp.TestGraphUtil FingerPrint.GetValid), ⟨c, n, 0⟩,
          ⟨fn, encodeFingerPrint fp ++ (toLEBytes 4 c ++ (toLEBytes 8 n ++
            (toLEBytes 8 0 ++ rest))), 0 + fingerPrintSize + 4 + 8 + 8⟩)) := by
  constructor
  · intro e he
    rw [readHSGRHeader_encode fn fp c 0 e rest hfp hc (by norm_num) he, if_pos rfl]
  · intro n hn hn64
    rw [readHSGRHeader_encode fn fp c n 0 rest hfp hc hn64 (by norm_num),
      if_neg (by omega : ¬ n = 0)]

/-- Witness for C3: a concrete header with zero nodes and three edges is
rejected; one with two nodes and zero edges is accepted. -/
theorem readHSGRHeader_zero_nodes_witness :
    (FingerPrint.Wf FingerPrint.GetValid ∧ (9 : Nat) < 2 ^ 32 ∧ (3 : Nat) < 2 ^ 64 ∧
      (0 : Nat) < 2 ∧ (2 : Nat) < 2 ^ 64) ∧
    readHSGRHeader ⟨"g", encodeFingerPrint FingerPrint.GetValid ++ (toLEBytes 4 9 ++
        (toLEBytes 8 0 ++ (toLEBytes 8 3 ++ []))), 0⟩ =
      .error (.assertionFailure "number of nodes is zero") ∧
    readHSGRHeader ⟨"g", encodeFingerPrint FingerPrint.GetValid ++ (toLEBytes 4 9 ++
        (toLEBytes 8 2 ++ (toLEBytes 8 0 ++ []))), 0⟩ =
      .ok (!(FingerPrint.GetValid.TestGraphUtil FingerPrint.GetValid), ⟨9, 2, 0⟩,
        ⟨"g", encodeFingerPrint FingerPrint.GetValid ++ (toLEBytes 4 9 ++
          (toLEBytes 8 2 ++ (toLEBytes 8 0 ++ []))), 0 + fingerPrintSize + 4 + 8 + 8⟩) := by
  have h := readHSGRHeader_zero_nodes "g" FingerPrint.GetValid 9 []
    ⟨by norm_num [FingerPrint.GetValid], by norm_num [FingerPrint.GetValid],
     by norm_num [FingerPrint.GetValid], by norm_num [FingerPrint.GetValid],
     by norm_num [FingerPrint.GetValid]⟩ (by norm_num)
  exact ⟨⟨⟨by norm_num [FingerPrint.GetValid], by norm_num [FingerPrint.GetValid],
      by norm_num [FingerPrint.GetValid], by norm_num [FingerPrint.GetValid],
      by norm_num [FingerPrint.GetValid]⟩, by norm_num, by norm_num, by norm_num,
      by norm_num⟩,
    h.1 3 (by norm_num), h.2 2 (by norm_num) (by norm_num)⟩

/-- C6 counterexample: a `.hsgr` stream whose fingerprint differs from the
current build in exactly the contraction and spatial-index dimensions (magic
number, graph-construction and query-object dimensions all match) is read
without any warning being logged (`readHSGRHeader` returns the warning flag
`false`), contradicting the claim that a spatial-index/contraction mismatch
logs a warning. -/
theorem readHSGRHeader_warn_counterexample :
    (FingerPrint.mk 1297240911 11 23 34 44).TestContractor FingerPrint.GetValid = false ∧
    (FingerPrint.mk 1297240911 11 23 34 44).TestRTree FingerPrint.GetValid = false ∧
    (FingerPrint.mk 1297240911 11 23 34 44).IsMagicNumberOK FingerPrint.GetValid = true ∧
    (FingerPrint.mk 1297240911 11 23 34 44).TestGraphUtil FingerPrint.GetValid = true ∧
    (FingerPrint.mk 1297240911 11 23 34 44).TestQueryObjects FingerPrint.GetValid = true ∧
    readHSGRHeader ⟨"h", encodeFingerPrint ⟨1297240911, 11, 23, 34, 44⟩ ++
        (toLEBytes 4 5 ++ (toLEBytes 8 1 ++ (toLEBytes 8 0 ++ []))), 0⟩ =
      .ok (false, ⟨5, 1, 0⟩,
        ⟨"h", encodeFingerPrint ⟨1297240911, 11, 23, 34, 44⟩ ++
          (toLEBytes 4 5 ++ (toLEBytes 8 1 ++ (toLEBytes 8 0 ++ []))), 40⟩) := by
  refine ⟨rfl, rfl, rfl, rfl, rfl, ?_⟩
  have h := readHSGRHeader_encode "h" ⟨1297240911, 11, 23, 34, 44⟩ 5 1 0 []
    ⟨by norm_num, by norm_num, by norm_num, by norm_num, by norm_num⟩
    (by norm_num) (by norm_num) (by norm_num)
  rw [h, if_neg (by norm_num : ¬ (1 : Nat) = 0)]
  rfl

/-- C6 amended: `readHSGRHeader` never fails on a fingerprint mismatch: the
log-only warning is triggered exactly when the graph-construction
(`TestGraphUtil`) dimension of the loaded fingerprint differs from the
current build — not the spatial-index/contraction dimensions — and for every
fingerprint difference it proceeds to read the GraphHeader fields in order
(checksum, node count, edge count) without any fatal error. -/
theorem readHSGRHeader_fingerprint_tolerant (fn : String) (fp : FingerPrint) (c n e : Nat)
    (rest : List Nat) (hfp : fp.Wf) (hc : c < 2 ^ 32) (hn : n < 2 ^ 64) (he : e < 2 ^ 64)
    (hnz : n ≠ 0) :
    readHSGRHeader ⟨fn, encodeFingerPrint fp ++ (toLEBytes 4 c ++ (toLEBytes 8 n ++
        (toLEBytes 8 e ++ rest))), 0⟩ =
      .ok (!(fp.TestGraphUtil FingerPrint.GetValid), ⟨c, n, e⟩,
        ⟨fn, encodeFingerPrint fp ++ (toLEBytes 4 c ++ (toLEBytes 8 n ++
          (toLEBytes 8 e ++ rest))), 0 + fingerPrintSize + 4 + 8 + 8⟩) := by
  rw [readHSGRHeader_encode fn fp c n e rest hfp hc hn he, if_neg hnz]

/-- Witness for the amended C6: a fingerprint differing from the current
build in every dimension still yields a successful header read (with the
warning flag set, since the graph-construction dimension differs). -/
theorem readHSGRHeader_fingerprint_tolerant_witness :
    (FingerPrint.Wf ⟨1, 2, 3, 4, 5⟩ ∧ (7 : Nat) < 2 ^ 32 ∧ (6 : Nat) < 2 ^ 64 ∧
      (9 : Nat) < 2 ^ 64 ∧ (6 : Nat) ≠ 0) ∧
    readHSGRHeader ⟨"w", encodeFingerPrint ⟨1, 2, 3, 4, 5⟩ ++ (toLEBytes 4 7 ++
        (toLEBytes 8 6 ++ (toLEBytes 8 9 ++ [1, 2]))), 0⟩ =
      .ok (!((⟨1, 2, 3, 4, 5⟩ : FingerPrint).TestGraphUtil FingerPrint.GetValid),
        ⟨7, 6, 9⟩,
        ⟨"w", encodeFingerPrint ⟨1, 2, 3, 4, 5⟩ ++ (toLEBytes 4 7 ++
          (toLEBytes 8 6 ++ (toLEBytes 8 9 ++ [1, 2]))), 0 + fingerPrintSize + 4 + 8 + 8⟩) :=
  ⟨⟨⟨by norm_num, by norm_num, by norm_num, by norm_num, by norm_num⟩,
    by norm_num, by norm_num, by norm_num, by norm_num⟩,
   readHSGRHeader_fingerprint_tolerant "w" ⟨1, 2, 3, 4, 5⟩ 7 6 9 [1, 2]
     ⟨by norm_num, by norm_num, by norm_num, by norm_num, by norm_num⟩
     (by norm_num) (by norm_num) (by norm_num) (by norm_num)⟩

theorem encodeOriginalEdgeData_length (r : OriginalEdgeData) :
    (encodeOriginalEdgeData r).length = originalEdgeDataSize := by
  simp [encodeOriginalEdgeData, originalEdgeDataSize, toLEBytes_length]

theorem decodeOriginalEdgeData_encode (r : OriginalEdgeData) (hr : r.Wf) :
    decodeOriginalEdgeData (encodeOriginalEdgeData r) = r := by
  obtain ⟨h1, h2, h3, h4, h5, h6, h7, h8⟩ := hr
  have l4 : ∀ n : Nat, (toLEBytes 4 n).length = 4 := fun n => toLEBytes_length 4 n
  simp only [encodeOriginalEdgeData, List.append_assoc]
  have d4 : (toLEBytes 4 r.via_geometry ++ (toLEBytes 4 r.name_id ++
      (toLEBytes 4 r.turn_instruction ++ (toLEBytes 4 r.lane_data_id ++
      (toLEBytes 4 r.travel_mode ++ (toLEBytes 4 r.entry_classid ++
      (toLEBytes 4 r.pre_turn_bearing ++ toLEBytes 4 r.post_turn_bearing))))))).drop 4 =
      toLEBytes 4 r.name_id ++ (toLEBytes 4 r.turn_instruction ++
      (toLEBytes 4 r.lane_data_id ++ (toLEBytes 4 r.travel_mode ++
      (toLEBytes 4 r.entry_classid ++ (toLEBytes 4 r.pre_turn_bearing ++
      toLEBytes 4 r.post_turn_bearing))))) :=
    List.drop_left' (l4 _)
  have d8 := congrArg (List.drop 4) d4
  rw [List.drop_drop, List.drop_left' (l4 _)] at d8
  have d12 := congrArg (List.drop 4) d8
  rw [List.drop_drop, List.drop_left' (l4 _)] at d12
  have d16 := congrArg (List.drop 4) d12
  rw [List.drop_drop, List.drop_left' (l4 _)] at d16
  have d20 := congrArg (List.drop 4) d16
  rw [List.drop_drop, List.drop_left' (l4 _)] at d20
  have d24 := congrArg (List.drop 4) d20
  rw [List.drop_drop, List.drop_left' (l4 _)] at d24
  have d28 := congrArg (List.drop 4) d24
  rw [List.drop_drop, List.drop_left' (l4 _)] at d28
  simp only [decodeOriginalEdgeData]
  rw [List.take_left' (l4 _), d4, List.take_left' (l4 _),
    show (8 : Nat) = 4 + 4 from rfl, d8, List.take_left' (l4 _),
    show (12 : Nat) = 8 + 4 from rfl, show (8 : Nat) = 4 + 4 from rfl, d12,
    List.take_left' (l4 _),
    show (16 : Nat) = 12 + 4 from rfl, show (12 : Nat) = 8 + 4 from rfl,
    show (8 : Nat) = 4 + 4 from rfl, d16, List.take_left' (l4 _),
    show (20 : Nat) = 16 + 4 from rfl, show (16 : Nat) = 12 + 4 from rfl,
    show (12 : Nat) = 8 + 4 from rfl, show (8 : Nat) = 4 + 4 from rfl, d20,
    List.take_left' (l4 _),
    show (24 : Nat) = 20 + 4 from rfl, show (20 : Nat) = 16 + 4 from rfl,
    show (16 : Nat) = 12 + 4 from rfl, show (12 : Nat) = 8 + 4 from rfl,
    show (8 : Nat) = 4 + 4 from rfl, d24, List.take_left' (l4 _),
    show (28 : Nat) = 24 + 4 from rfl, show (24 : Nat) = 20 + 4 from rfl,
    show (20 : Nat) = 16 + 4 from rfl, show (16 : Nat) = 12 + 4 from rfl,
    show (12 : Nat) = 8 + 4 from rfl, show (8 : Nat) = 4 + 4 from rfl, d28,
    List.take_of_length_le (le_of_eq (l4 _)),
    leVal_toLEBytes4 _ h1, leVal_toLEBytes4 _ h2, leVal_toLEBytes4 _ h3,
    leVal_toLEBytes4 _ h4, leVal_toLEBytes4 _ h5, leVal_toLEBytes4 _ h6,
    leVal_toLEBytes4 _ h7, leVal_toLEBytes4 _ h8]

/-- The `readEdges` loop over a stream that holds exactly the encoded records
next: returns them in file order and advances past them. -/
theorem readEdgesLoop_encode (records : List OriginalEdgeData) (f : File) (post : List Nat)
    (hwf : ∀ r ∈ records, r.Wf)
    (h : f.data.drop f.pos = encodeEdgeRecords records ++ post) :
    readEdgesLoop records.length f =
      .ok (records, { f with pos := f.pos + originalEdgeDataSize * records.length }) := by
  induction records generalizing f with
  | nil =>
      simp only [List.length_nil, readEdgesLoop, Nat.mul_zero, Nat.add_zero]
  | cons r rs ih =>
      have hrwf : r.Wf := hwf r (by simp)
      have h' : f.data.drop f.pos =
          encodeOriginalEdgeData r ++ (encodeEdgeRecords rs ++ post) := by
        rw [h, encodeEdgeRecords, List.append_assoc]
      have hread := readInto_at f 1 originalEdgeDataSize (encodeOriginalEdgeData r)
        (encodeEdgeRecords rs ++ post) (by norm_num [originalEdgeDataSize])
        (by rw [encodeOriginalEdgeData_length, one_mul]) h'
      rw [one_mul] at hread
      have hdrop : f.data.drop (f.pos + originalEdgeDataSize) =
          encodeEdgeRecords rs ++ post :=
        drop_after f.data f.pos originalEdgeDataSize _ _
          (encodeOriginalEdgeData_length r) h'
      have hrec := ih { f with pos := f.pos + originalEdgeDataSize }
        (fun x hx => hwf x (by simp [hx])) hdrop
      simp only [List.length_cons, readEdgesLoop, hread, bind, Except.bind, hrec,
        decodeOriginalEdgeData_encode r hrwf, pure, Except.pure]
      have : f.pos + originalEdgeDataSize + originalEdgeDataSize * rs.length =
          f.pos + originalEdgeDataSize * (rs.length + 1) := by ring
      rw [this]

theorem readEdgesLoop_length (M : Nat) (f : File) (records : List OriginalEdgeData)
    (f' : File) (h : readEdgesLoop M f = .ok (records, f')) : records.length = M := by
  induction M generalizing f records f' with
  | zero =>
      simp only [readEdgesLoop] at h
      cases h
      rfl
  | succ n ih =>
      simp only [readEdgesLoop] at h
      cases hr : f.readInto 1 originalEdgeDataSize with
      | error e => rw [hr] at h; exact Except.noConfusion h
      | ok v =>
          obtain ⟨bs, f1⟩ := v
          rw [hr] at h
          simp only [bind, Except.bind] at h
          cases hl : readEdgesLoop n f1 with
          | error e => rw [hl] at h; exact Except.noConfusion h
          | ok w =>
              obtain ⟨rest, f2⟩ := w
              rw [hl] at h
              simp only [pure, Except.pure] at h
              cases h
              simp [ih f1 rest f' hl]

/-- C4 amended: every successful `readEdges` run over `M` edge records
produces eight (not seven) parallel output sequences, each of length exactly
`M`, and position `i` of every sequence carries the corresponding field of
the same source record `i` (the `i`-th record decoded from the stream). -/
theorem readEdges_parallel (f : File) (M : Nat) (el : EdgeLists) (f' : File)
    (h : readEdges f M = .ok (el, f')) :
    el.outputSequences.length = 8 ∧
    (∀ l ∈ el.outputSequences, l.length = M) ∧
    ∃ records : List OriginalEdgeData,
      readEdgesLoop M f = .ok (records, f') ∧ records.length = M ∧
      el.geometry_list = records.map (·.via_geometry) ∧
      el.name_id_list = records.map (·.name_id) ∧
      el.turn_instruction_list = records.map (·.turn_instruction) ∧
      el.lane_data_id_list = records.map (·.lane_data_id) ∧
      el.travel_mode_list = records.map (·.travel_mode) ∧
      el.entry_class_id_list = records.map (·.entry_classid) ∧
      el.pre_turn_bearing_list = records.map (·.pre_turn_bearing) ∧
      el.post_turn_bearing_list = records.map (·.post_turn_bearing) := by
  simp only [readEdges] at h
  cases hl : readEdgesLoop M f with
  | error e => rw [hl] at h; exact Except.noConfusion h
  | ok w =>
      obtain ⟨records, f2⟩ := w
      rw [hl] at h
      simp only [bind, Except.bind, pure, Except.pure] at h
      cases h
      have hlen := readEdgesLoop_length M f records f' hl
      refine ⟨rfl, ?_, records, rfl, hlen, rfl, rfl, rfl, rfl, rfl, rfl, rfl, rfl⟩
      intro l hl'
      simp only [EdgeLists.outputSequences, List.mem_cons, List.mem_singleton] at hl'
      rcases hl' with rfl | rfl | rfl | rfl | rfl | rfl | rfl | rfl | h'
      all_goals first
        | (simp only [List.length_map]; exact hlen)
        | exact absurd h' (List.not_mem_nil l)

/-- Witness for the amended C4 at a concrete input: one encoded record. -/
theorem readEdges_parallel_witness :
    (readEdges ⟨"e", encodeEdgeRecords [⟨1, 2, 3, 4, 5, 6, 7, 8⟩], 0⟩ 1 =
      .ok (⟨[1], [2], [3], [4], [5], [6], [7], [8]⟩,
        ⟨"e", encodeEdgeRecords [⟨1, 2, 3, 4, 5, 6, 7, 8⟩], 32⟩)) ∧
    (⟨[1], [2], [3], [4], [5], [6], [7], [8]⟩ : EdgeLists).outputSequences.length = 8 ∧
    (∀ l ∈ (⟨[1], [2], [3], [4], [5], [6], [7], [8]⟩ : EdgeLists).outputSequences,
      l.length = 1) ∧
    ∃ records : List OriginalEdgeData,
      readEdgesLoop 1 ⟨"e", encodeEdgeRecords [⟨1, 2, 3, 4, 5, 6, 7, 8⟩], 0⟩ =
        .ok (records, ⟨"e", encodeEdgeRecords [⟨1, 2, 3, 4, 5, 6, 7, 8⟩], 32⟩) ∧
      records.length = 1 ∧
      ([1] : List Nat) = records.map (·.via_geometry) ∧
      ([2] : List Nat) = records.map (·.name_id) ∧
      ([3] : List Nat) = records.map (·.turn_instruction) ∧
      ([4] : List Nat) = records.map (·.lane_data_id) ∧
      ([5] : List Nat) = records.map (·.travel_mode) ∧
      ([6] : List Nat) = records.map (·.entry_classid) ∧
      ([7] : List Nat) = records.map (·.pre_turn_bearing) ∧
      ([8] : List Nat) = records.map (·.post_turn_bearing) := by
  have hrun : readEdges ⟨"e", encodeEdgeRecords [⟨1, 2, 3, 4, 5, 6, 7, 8⟩], 0⟩ 1 =
      .ok (⟨[1], [2], [3], [4], [5], [6], [7], [8]⟩,
        ⟨"e", encodeEdgeRecords [⟨1, 2, 3, 4, 5, 6, 7, 8⟩], 32⟩) := by rfl
  have h := readEdges_parallel _ 1 _ _ hrun
  exact ⟨hrun, h.1, h.2.1, h.2.2⟩

/-- C4 counterexample: on a concrete one-record input, a successful
`readEdges` run populates eight parallel output sequences, not seven —
refuting the claim that exactly seven are produced. -/
theorem readEdges_seven_counterexample :
    readEdges ⟨"e", encodeEdgeRecords [⟨1, 2, 3, 4, 5, 6, 7, 8⟩], 0⟩ 1 =
      .ok (⟨[1], [2], [3], [4], [5], [6], [7], [8]⟩,
        ⟨"e", encodeEdgeRecords [⟨1, 2, 3, 4, 5, 6, 7, 8⟩], 32⟩) ∧
    (⟨[1], [2], [3], [4], [5], [6], [7], [8]⟩ : EdgeLists).outputSequences.length ≠ 7 := by
  exact ⟨rfl, by decide⟩

theorem chunkRecords_length (n size : Nat) (bs : List Nat) :
    (chunkRecords n size bs).length = n := by
  induction n generalizing bs with
  | zero => rfl
  | succ n ih => simp [chunkRecords, ih]

theorem chunkRecords_flatten (n size : Nat) (bs : List Nat) :
    (chunkRecords n size bs).flatten = bs.take (n * size) := by
  induction n generalizing bs with
  | zero => simp [chunkRecords]
  | succ n ih =>
      simp only [chunkRecords, List.flatten_cons, ih]
      rw [← List.take_add]
      congr 1
      ring

theorem chunkRecords_getElem (n size : Nat) (bs : List Nat) (i : Nat) (hi : i < n) :
    (chunkRecords n size bs)[i]? = some ((bs.drop (i * size)).take size) := by
  induction n generalizing bs i with
  | zero => omega
  | succ n ih =>
      cases i with
      | zero => simp [chunkRecords]
      | succ i =>
          simp only [chunkRecords, List.getElem?_cons_succ]
          rw [ih (bs.drop size) i (by omega), List.drop_drop]
          congr 3
          ring

/-- C5: `deserializeVector` on a length-prefixed artifact — an 8-byte count
`N` followed by `N` records of `elemSize` bytes — returns exactly `N`
elements whose concatenated bytes equal the file's record bytes, element `i`
being record `i`; both the element count of the result and the byte span
read are the same count `N` from the prefix; `N = 0` succeeds with an empty
sequence. -/
theorem deserializeVector_length_prefixed (fn : String) (N elemSize : Nat)
    (payload rest : List Nat) (hN : N < 2 ^ 64) (hsize : 0 < elemSize)
    (hpay : payload.length = N * elemSize) :
    (⟨fn, toLEBytes 8 N ++ (payload ++ rest), 0⟩ : File).deserializeVector elemSize =
      .ok (chunkRecords N elemSize payload,
        ⟨fn, toLEBytes 8 N ++ (payload ++ rest), 0 + 8 + N * elemSize⟩) ∧
    (chunkRecords N elemSize payload).length = N ∧
    (chunkRecords N elemSize payload).flatten = payload ∧
    (∀ i, i < N → (chunkRecords N elemSize payload)[i]? =
      some ((payload.drop (i * elemSize)).take elemSize)) := by
  refine ⟨?_, chunkRecords_length N elemSize payload, ?_, fun i hi =>
    chunkRecords_getElem N elemSize payload i hi⟩
  · have h0 : (toLEBytes 8 N ++ (payload ++ rest)).drop 0 =
        toLEBytes 8 N ++ (payload ++ rest) := List.drop_zero _
    have s1 := readU64_at ⟨fn, toLEBytes 8 N ++ (payload ++ rest), 0⟩ N (payload ++ rest)
      hN h0
    have h1 : (toLEBytes 8 N ++ (payload ++ rest)).drop (0 + 8) = payload ++ rest :=
      drop_after _ 0 8 _ _ (toLEBytes_length 8 N) h0
    by_cases hN0 : N = 0
    · subst hN0
      have hpay0 : payload = [] := List.eq_nil_of_length_eq_zero (by omega)
      subst hpay0
      simp only [List.nil_append] at s1
      simp [File.deserializeVector, File.readElementCount64, s1, bind, Except.bind,
        File.readInto, pure, Except.pure, chunkRecords]
    · have s2 := readInto_at ⟨fn, toLEBytes 8 N ++ (payload ++ rest), 0 + 8⟩ N elemSize
        payload rest (Nat.mul_pos (Nat.pos_of_ne_zero hN0) hsize) hpay h1
      simp only [File.deserializeVector, File.readElementCount64, s1, s2, bind,
        Except.bind, pure, Except.pure]
  · rw [chunkRecords_flatten, ← hpay, List.take_length]

/-- Witness for C5: count 2, element size 3, payload of 6 bytes. -/
theorem deserializeVector_length_prefixed_witness :
    ((2 : Nat) < 2 ^ 64 ∧ (0 : Nat) < 3 ∧
      ([1, 2, 3, 4, 5, 6] : List Nat).length = 2 * 3) ∧
    (⟨"v", toLEBytes 8 2 ++ ([1, 2, 3, 4, 5, 6] ++ [9]), 0⟩ : File).deserializeVector 3 =
      .ok (chunkRecords 2 3 [1, 2, 3, 4, 5, 6],
        ⟨"v", toLEBytes 8 2 ++ ([1, 2, 3, 4, 5, 6] ++ [9]), 0 + 8 + 2 * 3⟩) ∧
    (chunkRecords 2 3 [1, 2, 3, 4, 5, 6]).length = 2 ∧
    (chunkRecords 2 3 [1, 2, 3, 4, 5, 6]).flatten = [1, 2, 3, 4, 5, 6] ∧
    (∀ i, i < 2 → (chunkRecords 2 3 [1, 2, 3, 4, 5, 6])[i]? =
      some ((([1, 2, 3, 4, 5, 6] : List Nat).drop (i * 3)).take 3)) := by
  have h := deserializeVector_length_prefixed "v" 2 3 [1, 2, 3, 4, 5, 6] [9]
    (by norm_num) (by norm_num) (by norm_num)
  exact ⟨⟨by norm_num, by norm_num, by norm_num⟩, h.1, h.2.1, h.2.2.1, h.2.2.2⟩

theorem toSigned32_encodeSigned32 (i : Int) (h1 : -2 ^ 31 ≤ i) (h2 : i < 2 ^ 31) :
    toSigned32 (encodeSigned32 i) = i := by
  unfold toSigned32 encodeSigned32
  split_ifs with h <;> omega

theorem encodeSigned32_lt (i : Int) : encodeSigned32 i < 2 ^ 32 := by
  unfold encodeSigned32
  omega

theorem encodeQueryNode_length (node : QueryNode) :
    (encodeQueryNode node).length = queryNodeSize := by
  simp [encodeQueryNode, queryNodeSize, toLEBytes_length]

theorem decodeQueryNode_encode (node : QueryNode) (h : node.Wf) :
    decodeQueryNode (encodeQueryNode node) = node := by
  obtain ⟨h1, h2, h3, h4, h5⟩ := h
  have l4 : ∀ n : Nat, (toLEBytes 4 n).length = 4 := fun n => toLEBytes_length 4 n
  simp only [encodeQueryNode, List.append_assoc]
  have d4 : (toLEBytes 4 (encodeSigned32 node.lon) ++ (toLEBytes 4 (encodeSigned32 node.lat) ++
      toLEBytes 8 node.node_id)).drop 4 =
      toLEBytes 4 (encodeSigned32 node.lat) ++ toLEBytes 8 node.node_id :=
    List.drop_left' (l4 _)
  have d8 := congrArg (List.drop 4) d4
  rw [List.drop_drop, List.drop_left' (l4 _)] at d8
  simp only [decodeQueryNode]
  rw [List.take_left' (l4 _), d4, List.take_left' (l4 _),
    show (8 : Nat) = 4 + 4 from rfl, d8,
    leVal_toLEBytes4 _ (encodeSigned32_lt node.lon),
    leVal_toLEBytes4 _ (encodeSigned32_lt node.lat),
    toSigned32_encodeSigned32 node.lon h1 h2, toSigned32_encodeSigned32 node.lat h3 h4,
    leVal_toLEBytes8 _ h5]

/-- The `readNodes` loop over a stream holding the encoded records, all with
valid coordinates: both accumulators grow in lock-step, index `i` receiving
the coordinate and external id of record `i`. -/
theorem readNodesLoop_encode (records : List QueryNode) (f : File) (post : List Nat)
    (coords : List Coordinate) (ids : List Nat)
    (hwf : ∀ r ∈ records, r.Wf)
    (hvalid : ∀ r ∈ records, (Coordinate.mk r.lon r.lat).IsValid = true)
    (h : f.data.drop f.pos = encodeNodeRecords records ++ post) :
    readNodesLoop records.length f coords ids =
      .ok (coords ++ records.map (fun r => Coordinate.mk r.lon r.lat),
        ids ++ records.map (·.node_id),
        { f with pos := f.pos + queryNodeSize * records.length }) := by
  induction records generalizing f coords ids with
  | nil =>
      simp only [List.length_nil, readNodesLoop, List.map_nil, List.append_nil,
        Nat.mul_zero, Nat.add_zero]
  | cons r rs ih =>
      have hrwf : r.Wf := hwf r (by simp)
      have h' : f.data.drop f.pos = encodeQueryNode r ++ (encodeNodeRecords rs ++ post) := by
        rw [h, encodeNodeRecords, List.append_assoc]
      have hread := readInto_at f 1 queryNodeSize (encodeQueryNode r)
        (encodeNodeRecords rs ++ post) (by norm_num [queryNodeSize])
        (by rw [encodeQueryNode_length, one_mul]) h'
      rw [one_mul] at hread
      have hdrop : f.data.drop (f.pos + queryNodeSize) = encodeNodeRecords rs ++ post :=
        drop_after f.data f.pos queryNodeSize _ _ (encodeQueryNode_length r) h'
      have hrec := ih { f with pos := f.pos + queryNodeSize }
        (coords ++ [Coordinate.mk r.lon r.lat]) (ids ++ [r.node_id])
        (fun x hx => hwf x (List.mem_cons_of_mem r hx))
        (fun x hx => hvalid x (List.mem_cons_of_mem r hx)) hdrop
      simp only [List.length_cons, readNodesLoop, hread, bind, Except.bind,
        decodeQueryNode_encode r hrwf, hvalid r (by simp), if_true, hrec,
        List.map_cons, List.append_assoc, List.singleton_append]
      have : f.pos + queryNodeSize + queryNodeSize * rs.length =
          f.pos + queryNodeSize * (rs.length + 1) := by ring
      rw [this]

/-- The `readNodes` loop hits an out-of-range coordinate: it fails fatally at
the first invalid record, whatever the requested count beyond it. -/
theorem readNodesLoop_invalid (pre : List QueryNode) (bad : QueryNode) (k : Nat)
    (f : File) (post : List Nat) (coords : List Coordinate) (ids : List Nat)
    (hwf : ∀ r ∈ pre, r.Wf)
    (hvalid : ∀ r ∈ pre, (Coordinate.mk r.lon r.lat).IsValid = true)
    (hbadwf : bad.Wf) (hbad : (Coordinate.mk bad.lon bad.lat).IsValid = false)
    (h : f.data.drop f.pos = encodeNodeRecords (pre ++ [bad]) ++ post) :
    readNodesLoop (pre.length + 1 + k) f coords ids =
      .error (.assertionFailure "invalid coordinate") := by
  induction pre generalizing f coords ids with
  | nil =>
      have hcount : (List.length ([] : List QueryNode)) + 1 + k = k + 1 := by
        simp only [List.length_nil]
        omega
      rw [hcount]
      have h' : f.data.drop f.pos = encodeQueryNode bad ++ post := by
        simpa [encodeNodeRecords] using h
      have hread := readInto_at f 1 queryNodeSize (encodeQueryNode bad) post
        (by norm_num [queryNodeSize]) (by rw [encodeQueryNode_length, one_mul]) h'
      rw [one_mul] at hread
      simp only [readNodesLoop, hread, bind, Except.bind,
        decodeQueryNode_encode bad hbadwf, hbad, Bool.false_eq_true, if_false]
  | cons p ps ih =>
      have hcount : (p :: ps).length + 1 + k = (ps.length + 1 + k) + 1 := by
        simp only [List.length_cons]
        omega
      rw [hcount]
      have hpwf : p.Wf := hwf p (by simp)
      have h' : f.data.drop f.pos =
          encodeQueryNode p ++ (encodeNodeRecords (ps ++ [bad]) ++ post) := by
        rw [h]
        simp [encodeNodeRecords, List.append_assoc]
      have hread := readInto_at f 1 queryNodeSize (encodeQueryNode p)
        (encodeNodeRecords (ps ++ [bad]) ++ post) (by norm_num [queryNodeSize])
        (by rw [encodeQueryNode_length, one_mul]) h'
      rw [one_mul] at hread
      have hdrop : f.data.drop (f.pos + queryNodeSize) =
          encodeNodeRecords (ps ++ [bad]) ++ post :=
        drop_after f.data f.pos queryNodeSize _ _ (encodeQueryNode_length p) h'
      have hrec := ih { f with pos := f.pos + queryNodeSize }
        (coords ++ [Coordinate.mk p.lon p.lat]) (ids ++ [p.node_id])
        (fun x hx => hwf x (List.mem_cons_of_mem p hx))
        (fun x hx => hvalid x (List.mem_cons_of_mem p hx)) hdrop
      simp only [readNodesLoop, hread, bind, Except.bind,
        decodeQueryNode_encode p hpwf, hvalid p (by simp), if_true, hrec]

/-- C7: `readNodes` splits each record into a coordinate entry and an
external-id entry at the same index — the two output sequences are the
per-record field maps, so they grow in lock-step with equal lengths — and it
fails fatally at the first decoded coordinate outside the valid
longitude/latitude range, whatever the requested count beyond it. -/
theorem readNodes_lockstep (fn : String) (post : List Nat) :
    (∀ records : List QueryNode, (∀ r ∈ records, r.Wf) →
      (∀ r ∈ records, (Coordinate.mk r.lon r.lat).IsValid = true) →
      readNodes ⟨fn, encodeNodeRecords records ++ post, 0⟩ records.length =
        .ok (records.map (fun r => Coordinate.mk r.lon r.lat),
          records.map (·.node_id),
          ⟨fn, encodeNodeRecords records ++ post, queryNodeSize * records.length⟩) ∧
      (records.map (fun r => Coordinate.mk r.lon r.lat)).length =
        (records.map (·.node_id)).length) ∧
    (∀ (pre : List QueryNode) (bad : QueryNode) (k : Nat),
      (∀ r ∈ pre, r.Wf) → (∀ r ∈ pre, (Coordinate.mk r.lon r.lat).IsValid = true) →
      bad.Wf → (Coordinate.mk bad.lon bad.lat).IsValid = false →
      readNodes ⟨fn, encodeNodeRecords (pre ++ [bad]) ++ post, 0⟩ (pre.length + 1 + k) =
        .error (.assertionFailure "invalid coordinate")) := by
  constructor
  · intro records hwf hvalid
    have h0 : (encodeNodeRecords records ++ post).drop 0 =
        encodeNodeRecords records ++ post := List.drop_zero _
    have hr := readNodesLoop_encode records ⟨fn, encodeNodeRecords records ++ post, 0⟩
      post [] [] hwf hvalid h0
    constructor
    · simpa [readNodes] using hr
    · simp
  · intro pre bad k hwf hvalid hbadwf hbad
    have h0 : (encodeNodeRecords (pre ++ [bad]) ++ post).drop 0 =
        encodeNodeRecords (pre ++ [bad]) ++ post := List.drop_zero _
    have hr := readNodesLoop_invalid pre bad k
      ⟨fn, encodeNodeRecords (pre ++ [bad]) ++ post, 0⟩ post [] [] hwf hvalid hbadwf hbad h0
    simpa [readNodes] using hr

/-- Witness for C7: two valid records decode in lock-step; a third record
with longitude 10^9 (outside ±180·10^6) aborts the decode. -/
theorem readNodes_lockstep_witness :
    ((∀ r ∈ ([⟨1, 2, 10⟩, ⟨3, 4, 20⟩] : List QueryNode), r.Wf) ∧
      QueryNode.Wf ⟨1000000000, 0, 30⟩ ∧
      (Coordinate.mk (1000000000 : Int) 0).IsValid = false) ∧
    readNodes ⟨"n", encodeNodeRecords [⟨1, 2, 10⟩, ⟨3, 4, 20⟩] ++ [7], 0⟩
        ([⟨1, 2, 10⟩, ⟨3, 4, 20⟩] : List QueryNode).length =
      .ok (([⟨1, 2, 10⟩, ⟨3, 4, 20⟩] : List QueryNode).map
          (fun r => Coordinate.mk r.lon r.lat),
        ([⟨1, 2, 10⟩, ⟨3, 4, 20⟩] : List QueryNode).map (·.node_id),
        ⟨"n", encodeNodeRecords [⟨1, 2, 10⟩, ⟨3, 4, 20⟩] ++ [7],
          queryNodeSize * ([⟨1, 2, 10⟩, ⟨3, 4, 20⟩] : List QueryNode).length⟩) ∧
    readNodes ⟨"n", encodeNodeRecords ([⟨1, 2, 10⟩] ++ [⟨1000000000, 0, 30⟩]) ++ [7], 0⟩
        (([⟨1, 2, 10⟩] : List QueryNode).length + 1 + 0) =
      .error (.assertionFailure "invalid coordinate") := by
  have h := readNodes_lockstep "n" [7]
  refine ⟨⟨by decide, by decide, by decide⟩, ?_, ?_⟩
  · exact (h.1 [⟨1, 2, 10⟩, ⟨3, 4, 20⟩] (by decide) (by decide)).1
  · exact h.2 [⟨1, 2, 10⟩] ⟨1000000000, 0, 30⟩ 0 (by decide) (by decide)
      (by decide) (by decide)

/-- C8: `skip(n)` followed by `readInto` is observationally the read a
handle positioned `n * element_size` bytes further would perform: it yields
exactly the bytes at that offset; skipping to or past end-of-file is itself
not an error (`skip` is total), and only the subsequent read fails there. -/
theorem skip_then_read (f : File) (n size k : Nat) :
    ((f.skip n size).readInto k size =
      (⟨f.filename, f.data, f.pos + n * size⟩ : File).readInto k size) ∧
    (∀ bytes post, 0 < k * size → bytes.length = k * size →
      f.data.drop (f.pos + n * size) = bytes ++ post →
      (f.skip n size).readInto k size =
        .ok (bytes, ⟨f.filename, f.data, f.pos + n * size + k * size⟩)) ∧
    (f.data.length ≤ f.pos + n * size → 0 < k →
      (f.skip n size).readInto k size = .error (.readNoBytes f.filename)) := by
  refine ⟨?_, ?_, ?_⟩
  · cases f
    rfl
  · intro bytes post hks hlen hdrop
    have := readInto_at (f.skip n size) k size bytes post hks hlen (by
      simpa [File.skip] using hdrop)
    simpa [File.skip] using this
  · intro hpast hk
    have hlen0 : ((f.data.drop (f.pos + n * size)).take (k * size)).length = 0 := by
      simp only [List.length_take, List.length_drop]
      omega
    simp only [File.readInto, File.skip]
    rw [if_neg (by omega : ¬ k = 0), if_pos hlen0]

/-- Witness for C8: six bytes, skip one 2-byte record then read two; and a
skip past end-of-file followed by a failing read. -/
theorem skip_then_read_witness :
    ((⟨"s", [1, 2, 3, 4, 5, 6], 0⟩ : File).skip 1 2).readInto 2 2 =
      (⟨"s", [1, 2, 3, 4, 5, 6], 0 + 1 * 2⟩ : File).readInto 2 2 ∧
    (0 < 2 * 2 ∧ ([3, 4, 5, 6] : List Nat).length = 2 * 2 ∧
      ([1, 2, 3, 4, 5, 6] : List Nat).drop (0 + 1 * 2) = [3, 4, 5, 6] ++ []) ∧
    ((⟨"s", [1, 2, 3, 4, 5, 6], 0⟩ : File).skip 1 2).readInto 2 2 =
      .ok ([3, 4, 5, 6], ⟨"s", [1, 2, 3, 4, 5, 6], 0 + 1 * 2 + 2 * 2⟩) ∧
    (([1, 2, 3, 4, 5, 6] : List Nat).length ≤ 0 + 4 * 2 ∧ 0 < 2) ∧
    ((⟨"s", [1, 2, 3, 4, 5, 6], 0⟩ : File).skip 4 2).readInto 2 2 =
      .error (.readNoBytes "s") := by
  have h1 := skip_then_read ⟨"s", [1, 2, 3, 4, 5, 6], 0⟩ 1 2 2
  have h4 := skip_then_read ⟨"s", [1, 2, 3, 4, 5, 6], 0⟩ 4 2 2
  exact ⟨h1.1, ⟨by decide, by decide, by decide⟩,
    h1.2.1 [3, 4, 5, 6] [] (by decide) (by decide) (by decide),
    ⟨by decide, by decide⟩, h4.2.2 (by decide) (by decide)⟩

theorem prefixOffsets_length (base : Nat) (ls : List (List Nat)) :
    (prefixOffsets base ls).length = ls.length := by
  induction ls generalizing base with
  | nil => rfl
  | cons l ls ih => simp [prefixOffsets, ih]

theorem prefixOffsets_getElem (ls : List (List Nat)) (base i : Nat) (hi : i < ls.length) :
    (prefixOffsets base ls)[i]? = some (base + ((ls.take i).flatten).length) := by
  induction ls generalizing base i with
  | nil => simp at hi
  | cons l ls ih =>
      cases i with
      | zero => simp [prefixOffsets]
      | succ i =>
          simp only [prefixOffsets, List.getElem?_cons_succ]
          rw [ih (base + l.length) i (by simpa using hi)]
          congr 1
          simp only [List.take_succ_cons, List.flatten_cons, List.length_append]
          omega

theorem readDatasourceNamesLoop_spec (lines : List (List Nat)) (d : DatasourceNamesData) :
    readDatasourceNamesLoop lines d =
      ⟨d.names ++ lines.flatten, d.offsets ++ prefixOffsets d.names.length lines,
        d.lengths ++ lines.map List.length⟩ := by
  induction lines generalizing d with
  | nil => simp [readDatasourceNamesLoop, prefixOffsets]
  | cons l ls ih =>
      simp only [readDatasourceNamesLoop, ih, prefixOffsets, List.flatten_cons,
        List.map_cons, List.length_append]
      refine congrArg₂ (fun a b => DatasourceNamesData.mk a b.1 b.2) ?_
        (congrArg₂ Prod.mk ?_ ?_) <;>
        simp [List.append_assoc]

theorem take_succ_flatten_length (lines : List (List Nat)) (i : Nat) (line : List Nat)
    (h : lines[i]? = some line) :
    ((lines.take (i + 1)).flatten).length = ((lines.take i).flatten).length + line.length := by
  rw [List.take_succ, h]
  simp

theorem flatten_window (lines : List (List Nat)) (i : Nat) (line : List Nat)
    (h : lines[i]? = some line) :
    ((lines.take i).flatten).length + line.length ≤ lines.flatten.length ∧
    (lines.flatten.drop ((lines.take i).flatten).length).take line.length = line := by
  have hi : i < lines.length := by
    by_contra hge
    rw [List.getElem?_eq_none (by omega)] at h
    exact Option.noConfusion h
  have hline : lines[i] = line := by
    have := List.getElem?_eq_getElem hi
    rw [this] at h
    exact Option.some.inj h
  have hdecomp : lines = lines.take i ++ line :: lines.drop (i + 1) := by
    conv_lhs => rw [← List.take_append_drop i lines]
    congr 1
    rw [List.drop_eq_getElem_cons hi, hline]
  have hflat : lines.flatten =
      (lines.take i).flatten ++ (line ++ (lines.drop (i + 1)).flatten) := by
    conv_lhs => rw [hdecomp]
    simp
  constructor
  · have := congrArg List.length hflat
    simp only [List.length_append] at this
    omega
  · rw [hflat, List.drop_left, List.take_left]

/-- C9: the table `readDatasourceNames` builds from the input lines has
`offsets` and `lengths` of equal length, one pair per line; each pair is a
valid window into `names` (`offset + length ≤ names.length`) whose bytes are
exactly line `i`; and consecutive windows are adjacent (the next offset is
`offset + length`), so windows never overlap. -/
theorem readDatasourceNames_table (f : File) :
    (readDatasourceNames f).1.offsets.length = (readDatasourceNames f).1.lengths.length ∧
    (readDatasourceNames f).1.offsets.length = (f.readLines).1.length ∧
    (∀ i line, (f.readLines).1[i]? = some line →
      (readDatasourceNames f).1.offsets[i]? =
        some (((f.readLines).1.take i).flatten).length ∧
      (readDatasourceNames f).1.lengths[i]? = some line.length ∧
      (((f.readLines).1.take i).flatten).length + line.length ≤
        (readDatasourceNames f).1.names.length ∧
      ((readDatasourceNames f).1.names.drop (((f.readLines).1.take i).flatten).length).take
          line.length = line ∧
      (∀ next, (f.readLines).1[i + 1]? = some next →
        (readDatasourceNames f).1.offsets[i + 1]? =
          some ((((f.readLines).1.take i).flatten).length + line.length))) := by
  have hrun : (readDatasourceNames f).1 =
      ⟨(f.readLines).1.flatten, prefixOffsets 0 (f.readLines).1,
        (f.readLines).1.map List.length⟩ := by
    show (readDatasourceNamesLoop (f.readLines).1 ⟨[], [], []⟩) = _
    rw [readDatasourceNamesLoop_spec]
    simp
  rw [hrun]
  refine ⟨by simp [prefixOffsets_length], by simp [prefixOffsets_length], ?_⟩
  intro i line h
  have hi : i < (f.readLines).1.length := by
    by_contra hge
    rw [List.getElem?_eq_none (by omega)] at h
    exact Option.noConfusion h
  have hwin := flatten_window (f.readLines).1 i line h
  refine ⟨?_, ?_, by simpa using hwin.1, by simpa using hwin.2, ?_⟩
  · rw [prefixOffsets_getElem (f.readLines).1 0 i hi]
    simp
  · simp [List.getElem?_map, h]
  · intro next hnext
    have hi1 : i + 1 < (f.readLines).1.length := by
      by_contra hge
      rw [List.getElem?_eq_none (by omega)] at hnext
      exact Option.noConfusion hnext
    rw [prefixOffsets_getElem (f.readLines).1 0 (i + 1) hi1,
      take_succ_flatten_length (f.readLines).1 i line h]
    simp

/-- Witness for C9: the two-line listing "ab\nc\n". -/
theorem readDatasourceNames_table_witness :
    ((⟨"d", [97, 98, 10, 99, 10], 0⟩ : File).readLines).1[0]? = some [97, 98] ∧
    ((⟨"d", [97, 98, 10, 99, 10], 0⟩ : File).readLines).1[1]? = some [99] ∧
    (readDatasourceNames ⟨"d", [97, 98, 10, 99, 10], 0⟩).1.offsets.length =
      (readDatasourceNames ⟨"d", [97, 98, 10, 99, 10], 0⟩).1.lengths.length ∧
    (readDatasourceNames ⟨"d", [97, 98, 10, 99, 10], 0⟩).1.offsets[0]? =
      some ((((⟨"d", [97, 98, 10, 99, 10], 0⟩ : File).readLines).1.take 0).flatten).length ∧
    (readDatasourceNames ⟨"d", [97, 98, 10, 99, 10], 0⟩).1.lengths[0]? =
      some ([97, 98] : List Nat).length ∧
    ((readDatasourceNames ⟨"d", [97, 98, 10, 99, 10], 0⟩).1.names.drop
        ((((⟨"d", [97, 98, 10, 99, 10], 0⟩ : File).readLines).1.take 0).flatten).length).take
      ([97, 98] : List Nat).length = [97, 98] ∧
    (readDatasourceNames ⟨"d", [97, 98, 10, 99, 10], 0⟩).1.offsets[0 + 1]? =
      some (((((⟨"d", [97, 98, 10, 99, 10], 0⟩ : File).readLines).1.take 0).flatten).length +
        ([97, 98] : List Nat).length) := by
  have h := readDatasourceNames_table ⟨"d", [97, 98, 10, 99, 10], 0⟩
  have h0 : ((⟨"d", [97, 98, 10, 99, 10], 0⟩ : File).readLines).1[0]? = some [97, 98] := by
    decide
  have h1 : ((⟨"d", [97, 98, 10, 99, 10], 0⟩ : File).readLines).1[1]? = some [99] := by
    decide
  have hpart := h.2.2 0 [97, 98] h0
  exact ⟨h0, h1, h.1, hpart.1, hpart.2.1, hpart.2.2.2.1, hpart.2.2.2.2 [99] h1⟩

/-- C10: the free-standing `readElementCount64` / `readElementCount32`
overloads that take a raw `ifstream` perform no short-read or error
detection: on a stream with fewer than the needed bytes they still return a
value — `0` when nothing was available, otherwise the little-endian value of
the available bytes over the zero-initialised variable — whereas
`File::readInto` on the same stream position fails. -/
theorem readElementCount_free_no_error (fn : String) (data : List Nat) (pos : Nat)
    (hshort : data.length - pos < 8) :
    (data.length ≤ pos →
      readElementCount64 ⟨fn, data, pos⟩ = (0, ⟨fn, data, pos⟩) ∧
      readElementCount32 ⟨fn, data, pos⟩ = (0, ⟨fn, data, pos⟩)) ∧
    (readElementCount64 ⟨fn, data, pos⟩).1 =
      leVal (data.drop pos ++ List.replicate (8 - (data.length - pos)) 0) ∧
    (⟨fn, data, pos⟩ : File).readInto 1 8 =
      .error (if data.length ≤ pos then .readNoBytes fn else .unexpectedEndOfFile fn) := by
  have hdroplen : (data.drop pos).length = data.length - pos := List.length_drop pos data
  have htake : (data.drop pos).take 8 = data.drop pos :=
    List.take_of_length_le (by omega)
  refine ⟨?_, ?_, ?_⟩
  · intro hle
    have hnil : data.drop pos = [] := by
      have : (data.drop pos).length = 0 := by omega
      exact List.eq_nil_of_length_eq_zero this
    constructor
    · simp only [readElementCount64, hnil, List.take_nil, List.length_nil,
        List.nil_append, Nat.add_zero, Nat.sub_zero]
      rw [show leVal (List.replicate 8 0) = 0 from by decide]
    · simp only [readElementCount32, hnil, List.take_nil, List.length_nil,
        List.nil_append, Nat.add_zero, Nat.sub_zero]
      rw [show leVal (List.replicate 4 0) = 0 from by decide]
  · simp only [readElementCount64, htake, hdroplen]
  · have := readInto_short_fails_helper ⟨fn, data, pos⟩ 1 8 (by norm_num)
      (by simpa using hshort)
    simpa using this

/-- Witness for C10: an exhausted stream (three bytes, cursor at 5). -/
theorem readElementCount_free_no_error_witness :
    (([1, 2, 3] : List Nat).length - 5 < 8 ∧ ([1, 2, 3] : List Nat).length ≤ 5) ∧
    readElementCount64 ⟨"c", [1, 2, 3], 5⟩ = (0, ⟨"c", [1, 2, 3], 5⟩) ∧
    readElementCount32 ⟨"c", [1, 2, 3], 5⟩ = (0, ⟨"c", [1, 2, 3], 5⟩) ∧
    (⟨"c", [1, 2, 3], 5⟩ : File).readInto 1 8 =
      .error (if ([1, 2, 3] : List Nat).length ≤ 5 then .readNoBytes "c"
        else .unexpectedEndOfFile "c") := by
  have h := readElementCount_free_no_error "c" [1, 2, 3] 5 (by norm_num)
  have hz := h.1 (by norm_num)
  exact ⟨⟨by norm_num, by norm_num⟩, hz.1, hz.2, h.2.2⟩

end OsrmIO
